import Mathlib

/-!
Verification of the AxisResearcher client orchestration core.

This file gives a shallow embedding of the orchestration layer of the
frontend application (`App.jsx`): the NDJSON progress-stream reader
`fetchWithProgress`, the step-tracking state of `fetchListingPhotos`, the
background-job poll loop of `handleConfirmCategories`, the result-merge
passes of `handleConfirmCategories`, and the list/selection handlers
`handleRemoveFromListing`, `handleDragEnd` and `handleRegenerateImages`.

Modelling conventions:
* JavaScript strings are Lean `String`s; chunk decoding is taken as given,
  so a stream is a `List String` of decoded chunks.
* `JSON.parse` plus the `type` tag dispatch is abstracted as a parameter
  `parse : String → Option WEvent`; `none` models a parse failure, and
  `WEvent.other` models a JSON object whose `type` is none of
  `progress`/`result`/`error`.
* A JavaScript array slot that may hold `undefined` is modelled as
  `Option String` (`Artifact`); `none` is `undefined`.
* `split('\n')` is implemented by structural recursion over the character
  list so that every definition evaluates by kernel reduction.
-/

/-- An artifact slot of the generated-images list: `some url` is a produced
image reference, `none` models the JavaScript `undefined` that an
out-of-range array read produces. -/
abbrev Artifact := Option String

/-- A decoded workflow event, the result of `JSON.parse` on one stream line
together with the `type`-field dispatch of `fetchWithProgress`.
`other` is a JSON object whose `type` is none of the three handled tags. -/
inductive WEvent where
  | progress (step : String) (status : String)
  | result (data : String)
  | error (msg : String)
  | other
deriving DecidableEq, Repr

/-- Discriminator for `progress`-typed events. -/
def WEvent.isProgress : WEvent → Bool
  | WEvent.progress _ _ => true
  | _ => false

/-- JavaScript blank-line test: `!line.trim()` is true exactly when the line
is made of whitespace only. -/
def jsIsBlank (s : String) : Bool :=
  s.data.all Char.isWhitespace

/-- Splitting a character list on the newline character, exactly as
JavaScript `split('\n')`: the accumulator holds the characters of the
current field in reverse. -/
def splitLinesAux : List Char → List Char → List (List Char)
  | [], acc => [acc.reverse]
  | c :: cs, acc =>
    if c = '\n' then acc.reverse :: splitLinesAux cs []
    else splitLinesAux cs (c :: acc)

/-- JavaScript `s.split('\n')`. -/
def jsSplitNewlines (s : String) : List String :=
  (splitLinesAux s.data []).map String.mk

/-- The mutable locals of `fetchWithProgress`: the decode buffer, the last
`result` payload, the last `error` message, and the sequence of events
passed to the `onProgress` callback (in call order). -/
structure StreamState where
  buffer : String
  result : Option String
  errorMsg : Option String
  progressEvents : List WEvent
deriving DecidableEq, Repr

/-- The locals of `fetchWithProgress` before the first chunk arrives. -/
def initStreamState : StreamState :=
  { buffer := "", result := none, errorMsg := none, progressEvents := [] }

/-- Processing of one complete line inside the chunk loop of
`fetchWithProgress` (source lines 32-46): blank lines are skipped, a parse
failure is logged and skipped, a `progress` event is forwarded to
`onProgress`, a `result` event stores its payload, an `error` event stores
its message, and any other tag is ignored. -/
def processLine (parse : String → Option WEvent) (st : StreamState) (line : String) : StreamState :=
  if jsIsBlank line then st
  else
    match parse line with
    | none => st
    | some ev =>
      match ev with
      | WEvent.progress step status =>
        { st with progressEvents := st.progressEvents ++ [WEvent.progress step status] }
      | WEvent.result d => { st with result := some d }
      | WEvent.error m => { st with errorMsg := some m }
      | WEvent.other => st

/-- Processing of one decoded chunk of `fetchWithProgress` (source lines
28-47): append to the buffer, split on newlines, keep the final (possibly
incomplete) field as the new buffer and process every complete line. -/
def processChunk (parse : String → Option WEvent) (st : StreamState) (chunk : String) : StreamState :=
  let lines := jsSplitNewlines (st.buffer ++ chunk)
  let st2 := lines.dropLast.foldl (processLine parse) st
  { st2 with buffer := lines.getLastD "" }

/-- The end-of-data flush of `fetchWithProgress` (source lines 49-58): if
the remaining buffer is not blank it is parsed as one final line, but only
`result` and `error` tags are handled there; parse failures are ignored. -/
def flushBuffer (parse : String → Option WEvent) (st : StreamState) : StreamState :=
  if jsIsBlank st.buffer then st
  else
    match parse st.buffer with
    | none => st
    | some ev =>
      match ev with
      | WEvent.result d => { st with result := some d }
      | WEvent.error m => { st with errorMsg := some m }
      | _ => st

/-- State of the `fetchWithProgress` locals after the whole stream has been
consumed and the trailing buffer flushed. -/
def streamFinalState (parse : String → Option WEvent) (chunks : List String) : StreamState :=
  flushBuffer parse (chunks.foldl (processChunk parse) initStreamState)

/-- The value of a `fetchWithProgress` call on a whole stream. The source's
final check is `if (errorMsg) throw` — a JavaScript truthiness test, false
both for the initial `null` and for an empty-string message — so the call
throws only when the stored error message is non-empty, and otherwise
resolves with the stored `result` payload (`none` when no `result` event
arrived). -/
def fetchWithProgress (parse : String → Option WEvent) (chunks : List String) :
    Except String (Option String) :=
  let st := streamFinalState parse chunks
  match st.errorMsg with
  | some m => if m = "" then Except.ok st.result else Except.error m
  | none => Except.ok st.result

/-- The events delivered to the `onProgress` callback over a whole stream,
in call order. -/
def fetchWithProgressCalls (parse : String → Option WEvent) (chunks : List String) : List WEvent :=
  (streamFinalState parse chunks).progressEvents

/-- Reference line decomposition of a whole chunk sequence: the complete
lines in processing order together with the final (unterminated) buffer. -/
def splitAll : String → List String → List String × String
  | buf, [] => ([], buf)
  | buf, c :: cs =>
    let lines := jsSplitNewlines (buf ++ c)
    let rest := splitAll (lines.getLastD "") cs
    (lines.dropLast ++ rest.1, rest.2)

/-- The event a single line contributes: nothing for a blank line or a parse
failure, otherwise the parsed event. -/
def lineEvent (parse : String → Option WEvent) (l : String) : Option WEvent :=
  if jsIsBlank l then none else parse l

/-- All events observed over a stream: the events of the complete lines in
order, followed by the event of the trailing unterminated buffer, if any. -/
def observedEvents (parse : String → Option WEvent) (chunks : List String) : List WEvent :=
  (splitAll "" chunks).1.filterMap (lineEvent parse) ++
    (lineEvent parse (splitAll "" chunks).2).toList

/-- Effect of one observed event on the pair (stored result payload, stored
error message). -/
def applyEventRE (p : Option String × Option String) (e : WEvent) :
    Option String × Option String :=
  match e with
  | WEvent.result d => (some d, p.2)
  | WEvent.error m => (p.1, some m)
  | _ => p

/-- The error messages carried by the `error`-typed events of a list, in
order. -/
def eventErrors (evs : List WEvent) : List String :=
  evs.filterMap fun e =>
    match e with
    | WEvent.error m => some m
    | _ => none

/-- The payloads carried by the `result`-typed events of a list, in order. -/
def eventResults (evs : List WEvent) : List String :=
  evs.filterMap fun e =>
    match e with
    | WEvent.result d => some d
    | _ => none

/-- Last element of a list as an option, with an explicit default option:
`lastSome l d` is the last element of `l` if it exists, `d` otherwise. -/
def lastSome : List α → Option α → Option α
  | [], d => d
  | a :: l, _ => lastSome l (some a)

/-- The step-tracker state kept in `fetchProgress` (and the analogous
`createListingProgress` and `uploadProgress`). -/
structure FetchProgressState where
  isActive : Bool
  currentStep : Option String
  completedSteps : List String
  totalSteps : List String
deriving DecidableEq, Repr

/-- The `onProgress` closure of `fetchListingPhotos` (source lines 162-174):
a `completed` progress event appends its step to `completedSteps` when not
already present, an `in_progress` event moves `currentStep`. -/
def fetchListingPhotosOnProgress (prev : FetchProgressState) (e : WEvent) : FetchProgressState :=
  match e with
  | WEvent.progress step status =>
    let completed :=
      if status = "completed" ∧ step ∉ prev.completedSteps
      then prev.completedSteps ++ [step]
      else prev.completedSteps
    { prev with
        completedSteps := completed
        currentStep := if status = "in_progress" then some step else prev.currentStep }
  | _ => prev

/-- The declared step list of `fetchListingPhotos` (source line 149). -/
def fetchListingSteps : List String :=
  ["Fetching listing from eBay", "Creating initial JSON file", "Categorizing images"]

/-- The final value of the step-tracker state at the end of a
`fetchListingPhotos` invocation with declared step list `steps` (source
lines 194-216): on a successful stream with a payload, all steps are forced
complete; when the call throws, or resolves with no payload (the subsequent
`data.photos` access then throws), the progress state is cleared. -/
def fetchListingPhotosFinalProgress (parse : String → Option WEvent) (chunks : List String)
    (steps : List String) : FetchProgressState :=
  match fetchWithProgress parse chunks with
  | Except.ok (some _) =>
    { isActive := false, currentStep := none, completedSteps := steps, totalSteps := steps }
  | Except.ok none =>
    { isActive := false, currentStep := none, completedSteps := [], totalSteps := [] }
  | Except.error _ =>
    { isActive := false, currentStep := none, completedSteps := [], totalSteps := [] }

/-- The `imageGenProgress` state driven by the `handleConfirmCategories`
poll loop. -/
structure ImageGenProgress where
  isActive : Bool
  taskId : Option String
  total : Nat
  completed : Nat
  currentGenerating : List String
deriving DecidableEq, Repr

/-- One response of the `/api/generate-images-status/:taskId` endpoint, as
read by the poll loop; an absent numeric or array field is `none` (the code
defaults it with `|| 0` and `|| []`). -/
structure StatusData where
  status : String
  completed : Option Nat
  generated_images : Option (List String)
  errors : Option (List String)
deriving DecidableEq, Repr

/-- The `imageGenProgress` value set right after job submission (source
lines 347-353). -/
def initImageGenProgress (taskId : String) (totalImages : Nat) : ImageGenProgress :=
  { isActive := true, taskId := some taskId, total := totalImages, completed := 0,
    currentGenerating := [] }

/-- The `imageGenProgress` value written by the terminal branch of the poll
loop (source lines 384-390 for `completed`, 410-416 for `failed`). -/
def pollTerminalUpdate (totalImages : Nat) (statusData : StatusData) : ImageGenProgress :=
  if statusData.status = "completed" then
    { isActive := false, taskId := none, total := totalImages, completed := totalImages,
      currentGenerating := [] }
  else
    { isActive := false, taskId := none, total := totalImages,
      completed := statusData.completed.getD 0, currentGenerating := [] }

/-- The poll loop of `handleConfirmCategories` (source lines 356-440), as
the sequence of `imageGenProgress` states written for a given sequence of
poll responses: a terminal response (`completed` or `failed`) clears the
interval, so the remaining responses are never consumed; a non-terminal
response only overwrites the `completed` count with the reported value. -/
def runPoll (totalImages : Nat) : List StatusData → ImageGenProgress → List ImageGenProgress
  | [], _ => []
  | statusData :: rest, prev =>
    if statusData.status = "completed" ∨ statusData.status = "failed" then
      [pollTerminalUpdate totalImages statusData]
    else
      let next := { prev with completed := statusData.completed.getD 0 }
      next :: runPoll totalImages rest next

/-- The non-skipped working items, in original order:
`photos.filter(photoUrl => !skippedPhotos.has(photoUrl))` (source line 287).
The JavaScript sets are modelled as key lists queried by membership. -/
def photosToProcess (photos skippedPhotos : List String) : List String :=
  photos.filter fun photoUrl => !(skippedPhotos.contains photoUrl)

/-- The number of working items that need processing: neither skipped nor
marked use-original. This is the count the backend's artifact list is
aligned with. -/
def countNeeding (useOriginalPhotos : List String) (items : List String) : Nat :=
  (items.filter fun photoUrl => !(useOriginalPhotos.contains photoUrl)).length

/-- The merge loop of the `completed` branch of the poll loop (source lines
370-378): iterate the non-skipped items, emit the original URL for
use-original items, and otherwise emit `aiGeneratedList[aiIndex++]`, which
is `undefined` (`none`) when the artifact list is exhausted. -/
def mergeCompletedLoop (useOriginalPhotos aiGeneratedList : List String) :
    List String → Nat → List Artifact
  | [], _ => []
  | photoUrl :: rest, aiIndex =>
    if useOriginalPhotos.contains photoUrl then
      some photoUrl :: mergeCompletedLoop useOriginalPhotos aiGeneratedList rest aiIndex
    else
      aiGeneratedList.get? aiIndex ::
        mergeCompletedLoop useOriginalPhotos aiGeneratedList rest (aiIndex + 1)

/-- The merged output list of the `completed` branch of
`handleConfirmCategories` (source lines 364-379). -/
def handleConfirmCategoriesMergeCompleted (photos skippedPhotos useOriginalPhotos : List String)
    (aiGeneratedList : List String) : List Artifact :=
  mergeCompletedLoop useOriginalPhotos aiGeneratedList (photosToProcess photos skippedPhotos) 0

/-- The merge loop of the `failed` branch of the poll loop (source lines
394-402): as the completed branch, but a needing item is emitted only while
`aiIndex < aiGeneratedList.length` (and `aiIndex` is not advanced past the
end). -/
def mergeFailedLoop (useOriginalPhotos aiGeneratedList : List String) :
    List String → Nat → List Artifact
  | [], _ => []
  | photoUrl :: rest, aiIndex =>
    if useOriginalPhotos.contains photoUrl then
      some photoUrl :: mergeFailedLoop useOriginalPhotos aiGeneratedList rest aiIndex
    else
      match aiGeneratedList.get? aiIndex with
      | some a => some a :: mergeFailedLoop useOriginalPhotos aiGeneratedList rest (aiIndex + 1)
      | none => mergeFailedLoop useOriginalPhotos aiGeneratedList rest aiIndex

/-- The merged output list of the `failed` branch of
`handleConfirmCategories` (source lines 391-403). -/
def handleConfirmCategoriesMergeFailed (photos skippedPhotos useOriginalPhotos : List String)
    (aiGeneratedList : List String) : List Artifact :=
  mergeFailedLoop useOriginalPhotos aiGeneratedList (photosToProcess photos skippedPhotos) 0

/-- Modelled from the spec (§4.5 Result Merge Engine): iterate
`workingItems` in original order; skip keys in `skipped`; for keys in
`useOriginal`, emit the original key itself as the Artifact; for all
remaining keys, consume the next Artifact from `processed` in order and
emit it; a count mismatch truncates the merge early for the unmatched
tail. This is the claim-side reference definition C1 compares the code
against. -/
def mergeSpec (skipped useOriginal : List String) : List String → List String → List Artifact
  | [], _ => []
  | u :: rest, processed =>
    if skipped.contains u then mergeSpec skipped useOriginal rest processed
    else if useOriginal.contains u then some u :: mergeSpec skipped useOriginal rest processed
    else
      match processed with
      | p :: ps => some p :: mergeSpec skipped useOriginal rest ps
      | [] => []

/-- Reference form of the failed-branch merge with structural artifact
consumption: needing items beyond the available artifacts are omitted,
while use-original items are still emitted. Used by the amended C7. -/
def mergeFailedStruct (useOriginal : List String) : List String → List String → List Artifact
  | [], _ => []
  | u :: rest, remaining =>
    if useOriginal.contains u then some u :: mergeFailedStruct useOriginal rest remaining
    else
      match remaining with
      | p :: ps => some p :: mergeFailedStruct useOriginal rest ps
      | [] => mergeFailedStruct useOriginal rest []

/-- JavaScript `Array.prototype.filter((_, i) => keep(i))`, carried out with
an explicit running index. -/
def filterWithIndexFrom (keep : Nat → Bool) : Nat → List α → List α
  | _, [] => []
  | n, a :: as =>
    if keep n then a :: filterWithIndexFrom keep (n + 1) as
    else filterWithIndexFrom keep (n + 1) as

/-- `handleRemoveFromListing` (source lines 462-465): drop the element at
`index` from the output list, drop `index` from the selection, and shift
every selected index above `index` down by one. -/
def handleRemoveFromListing (generatedImages : List Artifact) (selectedImagesForRegen : List Nat)
    (index : Nat) : List Artifact × List Nat :=
  (filterWithIndexFrom (fun i => i != index) 0 generatedImages,
   (selectedImagesForRegen.filter fun i => i != index).map fun i =>
     if index < i then i - 1 else i)

/-- `handleDragEnd` (source lines 467-480): no move when source and
destination coincide; otherwise splice the element out at `srcIdx`, splice
it back in at `destIdx` (JavaScript `splice` clamps an out-of-range
insertion index to the end, and reading a removed element out of range
yields `undefined`), and clear the whole selection. -/
def handleDragEnd (generatedImages : List Artifact) (selectedImagesForRegen : List Nat)
    (srcIdx destIdx : Nat) : List Artifact × List Nat :=
  if srcIdx = destIdx then (generatedImages, selectedImagesForRegen)
  else
    let moved : Artifact := (generatedImages.get? srcIdx).getD none
    let removed := generatedImages.eraseIdx srcIdx
    (removed.take destIdx ++ moved :: removed.drop destIdx, [])

/-- JavaScript array index assignment `l[i] = x`: an in-range index is
overwritten; an out-of-range index extends the array, filling the gap with
holes that read back as `undefined`. -/
def jsArraySet (l : List Artifact) (i : Nat) (x : Artifact) : List Artifact :=
  if i < l.length then l.set i x
  else l ++ List.replicate (i - l.length) none ++ [x]

/-- The write-back loop of `handleRegenerateImages` (source lines 547-552):
`selectedImagesForRegen.forEach((originalIndex, regenIndex) => ...)` writes
`regeneratedUrls[regenIndex]` into the copy of the output list at
`originalIndex`, guarded by `regenIndex < regeneratedUrls.length`. -/
def regenWriteLoop (regeneratedUrls : List String) : List Nat → Nat → List Artifact → List Artifact
  | [], _, newImages => newImages
  | originalIndex :: rest, regenIndex, newImages =>
    match regeneratedUrls.get? regenIndex with
    | some u => regenWriteLoop regeneratedUrls rest (regenIndex + 1)
        (jsArraySet newImages originalIndex (some u))
    | none => regenWriteLoop regeneratedUrls rest (regenIndex + 1) newImages

/-- The state written by a successful `handleRegenerateImages` call (source
lines 543-559): the output list with the regenerated URLs written back over
the selected positions in the selection's stored order, and the selection
reset to empty. -/
def handleRegenerateImages (generatedImages : List Artifact) (selectedImagesForRegen : List Nat)
    (regeneratedUrls : List String) : List Artifact × List Nat :=
  (regenWriteLoop regeneratedUrls selectedImagesForRegen 0 generatedImages, [])

/-- Insertion of a value into an ascending list of indices. -/
def insertAsc (n : Nat) : List Nat → List Nat
  | [] => [n]
  | m :: ms => if n ≤ m then n :: m :: ms else m :: insertAsc n ms

/-- The selected indices sorted in ascending order. -/
def sortAsc (l : List Nat) : List Nat :=
  l.foldr insertAsc []

/-- Modelled from the spec (§4.5, regenerate-only path): `selectedForRegen`
indices map 1:1, in ascending order, to the ordered regenerate results;
each is written back into the output list at its original index. This is
the claim-side reference definition C9 compares the code against. -/
def regenAscendingMerge (generatedImages : List Artifact) (selectedImagesForRegen : List Nat)
    (regeneratedUrls : List String) : List Artifact :=
  regenWriteLoop regeneratedUrls (sortAsc selectedImagesForRegen) 0 generatedImages

/-- A concrete event parser used by the closed witnesses and
counterexamples: a stand-in for `JSON.parse` on three known line shapes. -/
def demoParse : String → Option WEvent := fun s =>
  if s = "P" then some (WEvent.progress "step1" "completed")
  else if s = "R" then some (WEvent.result "payload")
  else if s = "E" then some (WEvent.error "boom")
  else none

/-- A concrete event parser whose error line carries an empty message, the
falsy case of the final `if (errorMsg)` check. -/
def demoParseEmptyMsg : String → Option WEvent := fun s =>
  if s = "R" then some (WEvent.result "payload")
  else if s = "F" then some (WEvent.error "")
  else none

/-! ### Stream reader: bridging lemmas -/

/-- Line processing, characterized through the event the line contributes. -/
lemma processLine_eq (parse : String → Option WEvent) (st : StreamState) (line : String) :
    processLine parse st line =
      match lineEvent parse line with
      | none => st
      | some (WEvent.progress step status) =>
          { st with progressEvents := st.progressEvents ++ [WEvent.progress step status] }
      | some (WEvent.result d) => { st with result := some d }
      | some (WEvent.error m) => { st with errorMsg := some m }
      | some WEvent.other => st := by
  unfold processLine lineEvent
  cases h : jsIsBlank line
  · simp only [Bool.false_eq_true, if_false]
    cases hp : parse line with
    | none => rfl
    | some ev => cases ev <;> rfl
  · simp only [if_true]

/-- Line processing never touches the decode buffer. -/
lemma processLine_buffer (parse : String → Option WEvent) (st : StreamState) (line : String) :
    (processLine parse st line).buffer = st.buffer := by
  rw [processLine_eq]
  cases h : lineEvent parse line with
  | none => rfl
  | some ev => cases ev <;> rfl

/-- Line processing ignores the decode buffer. -/
lemma processLine_set_buffer (parse : String → Option WEvent) (st : StreamState) (b line : String) :
    processLine parse { st with buffer := b } line
      = { processLine parse st line with buffer := b } := by
  rw [processLine_eq, processLine_eq]
  cases h : lineEvent parse line with
  | none => rfl
  | some ev => cases ev <;> rfl

/-- Folding line processing ignores the decode buffer. -/
lemma foldl_processLine_set_buffer (parse : String → Option WEvent) (ls : List String) :
    ∀ (st : StreamState) (b : String),
      ls.foldl (processLine parse) { st with buffer := b }
        = { ls.foldl (processLine parse) st with buffer := b } := by
  induction ls with
  | nil => intro st b; rfl
  | cons l ls ih =>
    intro st b
    rw [List.foldl_cons, List.foldl_cons, processLine_set_buffer]
    exact ih _ b

/-- The stored (result, error) pair after a run of complete lines is the
fold of the events those lines contribute. -/
lemma foldl_processLine_pair (parse : String → Option WEvent) (ls : List String) :
    ∀ st : StreamState,
      ((ls.foldl (processLine parse) st).result, (ls.foldl (processLine parse) st).errorMsg)
        = (ls.filterMap (lineEvent parse)).foldl applyEventRE (st.result, st.errorMsg) := by
  induction ls with
  | nil => intro st; rfl
  | cons l ls ih =>
    intro st
    rw [List.foldl_cons, List.filterMap_cons, processLine_eq]
    cases h : lineEvent parse l with
    | none => exact ih st
    | some ev => cases ev <;> simpa [applyEventRE] using ih _

/-- The chunk loop equals processing all complete lines of the stream and
then installing the final unterminated buffer. -/
lemma foldl_processChunk_eq (parse : String → Option WEvent) (chunks : List String) :
    ∀ st : StreamState,
      chunks.foldl (processChunk parse) st
        = { (splitAll st.buffer chunks).1.foldl (processLine parse) st with
              buffer := (splitAll st.buffer chunks).2 } := by
  induction chunks with
  | nil => intro st; rfl
  | cons c cs ih =>
    intro st
    rw [List.foldl_cons, ih]
    simp only [processChunk, splitAll, List.foldl_append]
    rw [foldl_processLine_set_buffer]

/-- The flush acts on the stored (result, error) pair exactly as applying
the trailing buffer's event, if any. -/
lemma flushBuffer_pair (parse : String → Option WEvent) (st : StreamState) :
    ((flushBuffer parse st).result, (flushBuffer parse st).errorMsg)
      = match lineEvent parse st.buffer with
        | none => (st.result, st.errorMsg)
        | some e => applyEventRE (st.result, st.errorMsg) e := by
  unfold flushBuffer lineEvent
  cases h : jsIsBlank st.buffer
  · simp only [Bool.false_eq_true, if_false]
    cases hp : parse st.buffer with
    | none => rfl
    | some ev => cases ev <;> rfl
  · simp only [if_true]

/-- The final stored (result, error) pair of a whole `fetchWithProgress`
run is the fold of all observed events. -/
lemma streamFinalState_pair (parse : String → Option WEvent) (chunks : List String) :
    ((streamFinalState parse chunks).result, (streamFinalState parse chunks).errorMsg)
      = (observedEvents parse chunks).foldl applyEventRE (none, none) := by
  unfold streamFinalState observedEvents
  have hb : initStreamState.buffer = "" := rfl
  rw [flushBuffer_pair, foldl_processChunk_eq parse chunks initStreamState, hb]
  simp only [List.foldl_append]
  have hpair := foldl_processLine_pair parse (splitAll "" chunks).1 initStreamState
  cases h : lineEvent parse (splitAll "" chunks).2 with
  | none => simpa [Option.toList] using hpair
  | some e =>
    simp only [Option.toList, List.foldl_cons, List.foldl_nil]
    rw [hpair]
    rfl

/-- The stored error message after folding events is the last error message
among them, defaulting to the incoming one. -/
lemma foldl_applyEventRE_snd (evs : List WEvent) :
    ∀ p : Option String × Option String,
      (evs.foldl applyEventRE p).2 = lastSome (eventErrors evs) p.2 := by
  induction evs with
  | nil => intro p; rfl
  | cons e evs ih =>
    intro p
    cases e <;> simp only [List.foldl_cons, eventErrors, List.filterMap_cons] <;> exact ih _

/-- The stored result payload after folding events is the last result
payload among them, defaulting to the incoming one. -/
lemma foldl_applyEventRE_fst (evs : List WEvent) :
    ∀ p : Option String × Option String,
      (evs.foldl applyEventRE p).1 = lastSome (eventResults evs) p.1 := by
  induction evs with
  | nil => intro p; rfl
  | cons e evs ih =>
    intro p
    cases e <;> simp only [List.foldl_cons, eventResults, List.filterMap_cons] <;> exact ih _

/-- A list ending in `a` has `some a` as its last element. -/
lemma lastSome_append_singleton (l : List α) (a : α) :
    ∀ d : Option α, lastSome (l ++ [a]) d = some a := by
  induction l with
  | nil => intro d; rfl
  | cons b l ih => intro d; exact ih _

/-- The value of a whole `fetchWithProgress` call, read off the observed
events: the last observed error message wins when it is non-empty (truthy);
otherwise the last observed result payload is returned. -/
lemma fetchWithProgress_eq (parse : String → Option WEvent) (chunks : List String) :
    fetchWithProgress parse chunks =
      match lastSome (eventErrors (observedEvents parse chunks)) none with
      | some m =>
        if m = "" then Except.ok (lastSome (eventResults (observedEvents parse chunks)) none)
        else Except.error m
      | none => Except.ok (lastSome (eventResults (observedEvents parse chunks)) none) := by
  unfold fetchWithProgress
  dsimp only
  have h := streamFinalState_pair parse chunks
  have h2 : (streamFinalState parse chunks).errorMsg
      = lastSome (eventErrors (observedEvents parse chunks)) none := by
    have := congrArg Prod.snd h
    simpa [foldl_applyEventRE_snd] using this
  have h1 : (streamFinalState parse chunks).result
      = lastSome (eventResults (observedEvents parse chunks)) none := by
    have := congrArg Prod.fst h
    simpa [foldl_applyEventRE_fst] using this
  rw [h2, h1]

/-- C2 counterexample — a stream in which an error-typed event is observed
does not always fail: the source's final `if (errorMsg)` is a truthiness
check, false for an empty-string message, so a stream carrying a result
event and an error event with message `""` resolves with the result
instead of throwing. -/
theorem c2_error_event_fails_call_counterexample :
    observedEvents demoParseEmptyMsg ["R\nF\n"] = [WEvent.result "payload", WEvent.error ""]
    ∧ fetchWithProgress demoParseEmptyMsg ["R\nF\n"] = Except.ok (some "payload") :=
  ⟨by decide, rfl⟩

/-- C2 amended — for every stream in which an error-typed event is observed
whose message survives as the last stored one and is non-empty (truthy),
the overall stream-reading call fails with exactly that message (with
exactly one error event observed, that error's message), even if a
result-typed event also arrived, in either order relative to the error
event. -/
theorem c2_error_event_fails_call (parse : String → Option WEvent) (chunks : List String)
    (m : String)
    (h : lastSome (eventErrors (observedEvents parse chunks)) none = some m)
    (hm : m ≠ "") :
    fetchWithProgress parse chunks = Except.error m := by
  rw [fetchWithProgress_eq, h]
  exact if_neg hm

/-- Witness for the amended C2: a stream carrying a result event and then
an error event with a non-empty message fails with the error's message. -/
theorem c2_error_event_fails_call_witness :
    (lastSome (eventErrors (observedEvents demoParse ["R\nE\n"])) none = some "boom"
      ∧ "boom" ≠ "")
    ∧ fetchWithProgress demoParse ["R\nE\n"] = Except.error "boom" :=
  ⟨⟨by decide, by decide⟩,
    c2_error_event_fails_call demoParse ["R\nE\n"] "boom" (by decide) (by decide)⟩

/-- C3 — For every well-formed stream of any number of progress events
followed by one result event, the step-tracker state of
`fetchListingPhotos` ends with `completedSteps` equal to the full declared
step list and `isActive = false`, regardless of which individual steps the
inline events marked completed. -/
theorem c3_forced_completion (parse : String → Option WEvent) (chunks : List String)
    (steps : List String) (pevs : List WEvent) (d : String)
    (hobs : observedEvents parse chunks = pevs ++ [WEvent.result d])
    (hprog : ∀ e ∈ pevs, e.isProgress = true) :
    (fetchListingPhotosFinalProgress parse chunks steps).completedSteps = steps
    ∧ (fetchListingPhotosFinalProgress parse chunks steps).isActive = false := by
  have herr : eventErrors (observedEvents parse chunks) = [] := by
    rw [hobs]
    unfold eventErrors
    rw [List.filterMap_append]
    have h1 : pevs.filterMap (fun e => match e with | WEvent.error m => some m | _ => none)
        = [] := by
      rw [List.filterMap_eq_nil_iff]
      intro e he
      have := hprog e he
      cases e <;> simp_all [WEvent.isProgress]
    rw [h1]
    rfl
  have hres : eventResults (observedEvents parse chunks) = eventResults pevs ++ [d] := by
    rw [hobs]
    unfold eventResults
    rw [List.filterMap_append]
    rfl
  have hfetch : fetchWithProgress parse chunks = Except.ok (some d) := by
    rw [fetchWithProgress_eq, herr, hres]
    simp [lastSome, lastSome_append_singleton]
  unfold fetchListingPhotosFinalProgress
  rw [hfetch]
  exact ⟨rfl, rfl⟩

/-- Witness for C3: one completed-progress event then a result event forces
the full declared step list. -/
theorem c3_forced_completion_witness :
    observedEvents demoParse ["P\nR\n"]
      = [WEvent.progress "step1" "completed"] ++ [WEvent.result "payload"]
    ∧ ((fetchListingPhotosFinalProgress demoParse ["P\nR\n"] fetchListingSteps).completedSteps
          = fetchListingSteps
      ∧ (fetchListingPhotosFinalProgress demoParse ["P\nR\n"] fetchListingSteps).isActive
          = false) :=
  ⟨by decide, c3_forced_completion demoParse ["P\nR\n"] fetchListingSteps
    [WEvent.progress "step1" "completed"] "payload" (by decide) (by decide)⟩

/-- C8 counterexample — the end-of-data flush does not handle the three
event types under the same rule as newline-terminated lines: a trailing
progress-typed line left in the buffer is never delivered to `onProgress`,
while the same line terminated by a newline is. -/
theorem c8_flush_counterexample :
    fetchWithProgressCalls demoParse ["P"] = []
    ∧ fetchWithProgressCalls demoParse ["P\n"] = [WEvent.progress "step1" "completed"]
    ∧ fetchWithProgressCalls demoParse ["P"] ≠ fetchWithProgressCalls demoParse ["P\n"] :=
  ⟨by decide, by decide, by decide⟩

/-- C8 amended — after end-of-data the remaining buffered content is parsed
as one final line and handled under the same rule as a newline-terminated
line for the result and error event types (a parse failure being skipped
and non-fatal), though a progress-typed trailing line is ignored; in
particular a truncated final chunk whose buffered content parses as a
result event still yields that result as the call's payload. -/
theorem c8_flush_amended (parse : String → Option WEvent) (st : StreamState)
    (chunks : List String) (evs : List WEvent) (d : String)
    (hobs : observedEvents parse chunks = evs ++ [WEvent.result d])
    (herr : eventErrors (observedEvents parse chunks) = []) :
    ((flushBuffer parse st).result = (processLine parse st st.buffer).result
      ∧ (flushBuffer parse st).errorMsg = (processLine parse st st.buffer).errorMsg)
    ∧ fetchWithProgress parse chunks = Except.ok (some d) := by
  constructor
  · rw [processLine_eq]
    unfold flushBuffer lineEvent
    cases h : jsIsBlank st.buffer
    · cases hp : parse st.buffer with
      | none => exact ⟨rfl, rfl⟩
      | some ev => cases ev <;> exact ⟨rfl, rfl⟩
    · exact ⟨rfl, rfl⟩
  · have hres : eventResults (observedEvents parse chunks) = eventResults evs ++ [d] := by
      rw [hobs]
      unfold eventResults
      rw [List.filterMap_append]
      rfl
    rw [fetchWithProgress_eq, herr, hres]
    simp [lastSome, lastSome_append_singleton]

/-- Witness for the amended C8: a stream whose single chunk is an
unterminated result line still resolves with that payload. -/
theorem c8_flush_amended_witness :
    observedEvents demoParse ["R"] = [] ++ [WEvent.result "payload"]
    ∧ fetchWithProgress demoParse ["R"] = Except.ok (some "payload") :=
  ⟨by decide,
    (c8_flush_amended demoParse initStreamState ["R"] [] "payload" (by decide) (by decide)).2⟩

/-! ### Job poller -/

/-- Closed form of the poll loop: a run of non-terminal responses followed
by a terminal one writes, in order, one processing update per non-terminal
response (each overwriting only the `completed` count with the reported
value) and then the terminal update; responses after the terminal one are
never consumed. -/
lemma runPoll_closed (totalImages : Nat) (t : StatusData) (post : List StatusData)
    (ht : t.status = "completed" ∨ t.status = "failed") :
    ∀ (pre : List StatusData) (st : ImageGenProgress),
      (∀ r ∈ pre, ¬(r.status = "completed" ∨ r.status = "failed")) →
      runPoll totalImages (pre ++ t :: post) st
        = pre.map (fun r => { st with completed := r.completed.getD 0 })
            ++ [pollTerminalUpdate totalImages t] := by
  intro pre
  induction pre with
  | nil =>
    intro st _
    simp only [List.nil_append, List.map_nil, runPoll, if_pos ht]
  | cons r pre ih =>
    intro st hpre
    have hr : ¬(r.status = "completed" ∨ r.status = "failed") :=
      hpre r (List.mem_cons_self r pre)
    simp only [List.cons_append, runPoll, if_neg hr, List.append_eq]
    rw [ih _ (fun x hx => hpre x (List.mem_cons_of_mem r hx))]
    rfl

/-- C4 counterexample — the tracked `completed` count is not monotonically
non-decreasing across successive processing updates: two processing
responses reporting counts 2 then 1 make the tracked count decrease. -/
theorem c4_poll_counterexample :
    (runPoll 5 [⟨"processing", some 2, none, none⟩, ⟨"processing", some 1, none, none⟩]
        (initImageGenProgress "t1" 5)).map ImageGenProgress.completed = [2, 1]
    ∧ ¬(2 ≤ 1) :=
  ⟨by decide, by decide⟩

/-- C4 amended — while responses have a non-terminal status, each poll tick
updates only the tracked `completed` count, setting it to the reported
value (so it is non-decreasing exactly when the reported counts are); once
a terminal response (`completed` or `failed`) is observed the timer is
cleared and never fires for that job again, and on the `completed` outcome
the reported count equals the total with the tracker deactivated. -/
theorem c4_poll_amended (totalImages : Nat) (taskId : String) (pre post : List StatusData)
    (t : StatusData)
    (hpre : ∀ r ∈ pre, ¬(r.status = "completed" ∨ r.status = "failed"))
    (ht : t.status = "completed" ∨ t.status = "failed") :
    runPoll totalImages (pre ++ t :: post) (initImageGenProgress taskId totalImages)
      = pre.map (fun r => { initImageGenProgress taskId totalImages with
            completed := r.completed.getD 0 })
          ++ [pollTerminalUpdate totalImages t]
    ∧ runPoll totalImages (pre ++ t :: post) (initImageGenProgress taskId totalImages)
        = runPoll totalImages (pre ++ [t]) (initImageGenProgress taskId totalImages)
    ∧ (t.status = "completed" →
        (pollTerminalUpdate totalImages t).completed = totalImages
        ∧ (pollTerminalUpdate totalImages t).isActive = false)
    ∧ (List.Chain' (· ≤ ·) (pre.map fun r => r.completed.getD 0) →
        List.Chain' (· ≤ ·)
          (((runPoll totalImages (pre ++ t :: post)
              (initImageGenProgress taskId totalImages)).take pre.length).map
            ImageGenProgress.completed)) := by
  have hclosed := runPoll_closed totalImages t post ht pre (initImageGenProgress taskId totalImages) hpre
  have hclosed1 := runPoll_closed totalImages t [] ht pre (initImageGenProgress taskId totalImages) hpre
  refine ⟨hclosed, hclosed.trans hclosed1.symm, ?_, ?_⟩
  · intro hc
    unfold pollTerminalUpdate
    rw [if_pos hc]
    exact ⟨rfl, rfl⟩
  · intro hchain
    rw [hclosed]
    have hlen : pre.length
        = (pre.map fun r => { initImageGenProgress taskId totalImages with
            completed := r.completed.getD 0 }).length := by
      rw [List.length_map]
    rw [hlen, List.take_left, List.map_map]
    exact hchain

/-- Witness for the amended C4: two processing updates, a completed
terminal response, and one response after it that the cleared timer never
consumes. -/
theorem c4_poll_amended_witness :
    (∀ r ∈ [(⟨"processing", some 1, none, none⟩ : StatusData),
        ⟨"processing", some 2, none, none⟩],
      ¬(r.status = "completed" ∨ r.status = "failed"))
    ∧ runPoll 3 [⟨"processing", some 1, none, none⟩, ⟨"processing", some 2, none, none⟩,
          ⟨"completed", some 3, none, none⟩, ⟨"processing", some 0, none, none⟩]
        (initImageGenProgress "t1" 3)
      = runPoll 3 [⟨"processing", some 1, none, none⟩, ⟨"processing", some 2, none, none⟩,
          ⟨"completed", some 3, none, none⟩] (initImageGenProgress "t1" 3) :=
  ⟨by decide,
    (c4_poll_amended 3 "t1"
      [⟨"processing", some 1, none, none⟩, ⟨"processing", some 2, none, none⟩]
      [⟨"processing", some 0, none, none⟩] ⟨"completed", some 3, none, none⟩
      (by decide) (by decide)).2.1⟩

/-! ### Result merge engine -/

/-- The skip set of the spec-side merge can be discharged up front by
filtering the working list, which is exactly what the code's
`photosToProcess` does. -/
lemma mergeSpec_filter_skipped (skipped useOriginal : List String) (items : List String) :
    ∀ processed : List String,
      mergeSpec skipped useOriginal items processed
        = mergeSpec [] useOriginal (photosToProcess items skipped) processed := by
  induction items with
  | nil => intro processed; rfl
  | cons u rest ih =>
    intro processed
    by_cases h : u ∈ skipped
    · have hdrop : photosToProcess (u :: rest) skipped = photosToProcess rest skipped := by
        simp [photosToProcess, List.filter_cons, h]
      rw [hdrop]
      simp only [mergeSpec]
      rw [if_pos (by simpa using h)]
      exact ih processed
    · have hkeep : photosToProcess (u :: rest) skipped = u :: photosToProcess rest skipped := by
        simp [photosToProcess, List.filter_cons, h]
      rw [hkeep]
      by_cases hu : u ∈ useOriginal
      · simp [mergeSpec, h, hu]
        exact ih processed
      · cases processed with
        | nil => simp [mergeSpec, h, hu]
        | cons p ps =>
          simp [mergeSpec, h, hu]
          exact ih ps

/-- A use-original head leaves the needing count unchanged. -/
lemma countNeeding_cons_uo (useOriginal : List String) (u : String) (rest : List String)
    (hu : useOriginal.contains u = true) :
    countNeeding useOriginal (u :: rest) = countNeeding useOriginal rest := by
  have hm : u ∈ useOriginal := by simpa using hu
  simp [countNeeding, List.filter_cons, hm]

/-- A needing head increases the needing count by one. -/
lemma countNeeding_cons_need (useOriginal : List String) (u : String) (rest : List String)
    (hu : useOriginal.contains u = false) :
    countNeeding useOriginal (u :: rest) = countNeeding useOriginal rest + 1 := by
  have hm : u ∉ useOriginal := by simpa using hu
  simp [countNeeding, List.filter_cons, hm]

/-- Under exact alignment, the index-synchronized completed-branch merge
loop equals the spec-side merge with structural artifact consumption. -/
lemma mergeCompletedLoop_eq_spec (useOriginal processed : List String) :
    ∀ (items : List String) (ai : Nat),
      processed.length = ai + countNeeding useOriginal items →
      mergeCompletedLoop useOriginal processed items ai
        = mergeSpec [] useOriginal items (processed.drop ai) := by
  intro items
  induction items with
  | nil => intro ai _; rfl
  | cons u rest ih =>
    intro ai h
    cases hu : useOriginal.contains u
    · rw [countNeeding_cons_need useOriginal u rest hu] at h
      have hlt : ai < processed.length := by omega
      have hget : processed.get? ai = some processed[ai] := List.get?_eq_get hlt
      have hdrop : processed.drop ai = processed[ai] :: processed.drop (ai + 1) :=
        List.drop_eq_getElem_cons hlt
      rw [hdrop]
      simp only [mergeCompletedLoop, hu, Bool.false_eq_true, if_false, hget, mergeSpec,
        List.contains_nil]
      rw [ih (ai + 1) (by omega)]
    · rw [countNeeding_cons_uo useOriginal u rest hu] at h
      simp only [mergeCompletedLoop, hu, if_true, mergeSpec, List.contains_nil,
        Bool.false_eq_true, if_false]
      rw [ih ai h]

/-- With no skip set, no use-original set and exact alignment, the
spec-side merge returns the processed artifacts unchanged in order. -/
lemma mergeSpec_nil_nil :
    ∀ (items processed : List String),
      processed.length = items.length →
      mergeSpec [] [] items processed = processed.map some := by
  intro items
  induction items with
  | nil =>
    intro processed h
    cases processed with
    | nil => rfl
    | cons p ps => simp at h
  | cons u rest ih =>
    intro processed h
    cases processed with
    | nil => simp at h
    | cons p ps =>
      simp only [mergeSpec, List.contains_nil, Bool.false_eq_true, if_false, List.map_cons]
      rw [ih ps (by simpa using h)]

/-- C1 — For every working list, selection state and aligned processed
sequence, the completed-branch merge iterates the working items in original
order, omits skipped keys, emits the original key for use-original keys and
consumes the next processed artifact for every remaining key; with all
three sets empty and exact alignment it returns the processed artifacts
unchanged in order. -/
theorem c1_merge_matches_spec (photos skippedPhotos useOriginalPhotos aiGeneratedList : List String)
    (halign : aiGeneratedList.length
      = countNeeding useOriginalPhotos (photosToProcess photos skippedPhotos)) :
    handleConfirmCategoriesMergeCompleted photos skippedPhotos useOriginalPhotos aiGeneratedList
      = mergeSpec skippedPhotos useOriginalPhotos photos aiGeneratedList
    ∧ (skippedPhotos = [] → useOriginalPhotos = [] →
        handleConfirmCategoriesMergeCompleted photos skippedPhotos useOriginalPhotos aiGeneratedList
          = aiGeneratedList.map some) := by
  have hmain : handleConfirmCategoriesMergeCompleted photos skippedPhotos useOriginalPhotos
        aiGeneratedList
      = mergeSpec [] useOriginalPhotos (photosToProcess photos skippedPhotos) aiGeneratedList := by
    unfold handleConfirmCategoriesMergeCompleted
    have h := mergeCompletedLoop_eq_spec useOriginalPhotos aiGeneratedList
      (photosToProcess photos skippedPhotos) 0 (by omega)
    simpa using h
  constructor
  · rw [hmain, ← mergeSpec_filter_skipped]
  · intro hs hu
    subst hs
    subst hu
    rw [hmain]
    have hpp : photosToProcess photos [] = photos := by
      simp [photosToProcess]
    have hcount : countNeeding [] (photosToProcess photos []) = photos.length := by
      simp [countNeeding, photosToProcess]
    rw [hpp]
    exact mergeSpec_nil_nil photos aiGeneratedList (by omega)

/-- Witness for C1: workingItems=[a,b,c], useOriginal={b}, processed=[A,C]
merges to [A, b, C]. -/
theorem c1_merge_matches_spec_witness :
    (["A", "C"].length = countNeeding ["b"] (photosToProcess ["a", "b", "c"] []))
    ∧ handleConfirmCategoriesMergeCompleted ["a", "b", "c"] [] ["b"] ["A", "C"]
        = [some "A", some "b", some "C"] := by
  refine ⟨by decide, ?_⟩
  rw [(c1_merge_matches_spec ["a", "b", "c"] [] ["b"] ["A", "C"] (by decide)).1]
  decide

/-- The failed-branch merge loop equals the structural reference merge that
truncates the unmatched needing tail. -/
lemma mergeFailedLoop_eq_struct (useOriginal processed : List String) :
    ∀ (items : List String) (ai : Nat),
      mergeFailedLoop useOriginal processed items ai
        = mergeFailedStruct useOriginal items (processed.drop ai) := by
  intro items
  induction items with
  | nil => intro ai; rfl
  | cons u rest ih =>
    intro ai
    cases hu : useOriginal.contains u
    · rcases Nat.lt_or_ge ai processed.length with hlt | hge
      · have hget : processed.get? ai = some processed[ai] := List.get?_eq_get hlt
        have hdrop : processed.drop ai = processed[ai] :: processed.drop (ai + 1) :=
          List.drop_eq_getElem_cons hlt
        rw [hdrop]
        simp only [mergeFailedLoop, hu, Bool.false_eq_true, if_false, hget, mergeFailedStruct]
        rw [ih (ai + 1)]
      · have hget : processed.get? ai = none := List.get?_eq_none.mpr hge
        have hdrop : processed.drop ai = [] := List.drop_eq_nil_of_le hge
        rw [hdrop]
        simp only [mergeFailedLoop, hu, Bool.false_eq_true, if_false, hget, mergeFailedStruct]
        rw [ih ai, hdrop]
    · simp only [mergeFailedLoop, hu, if_true, mergeFailedStruct]
      rw [ih ai]

/-- The failed-branch merge never emits an undefined entry. -/
lemma mergeFailedLoop_no_none (useOriginal processed : List String) :
    ∀ (items : List String) (ai : Nat),
      Option.none ∉ mergeFailedLoop useOriginal processed items ai := by
  intro items
  induction items with
  | nil => intro ai h; simp [mergeFailedLoop] at h
  | cons u rest ih =>
    intro ai hmem
    cases hu : useOriginal.contains u
    · rcases hget : processed.get? ai with _ | a
      · rw [mergeFailedLoop] at hmem
        simp only [hu, Bool.false_eq_true, if_false, hget] at hmem
        exact ih ai hmem
      · rw [mergeFailedLoop] at hmem
        simp only [hu, Bool.false_eq_true, if_false, hget, List.mem_cons] at hmem
        rcases hmem with h | h
        · exact Option.noConfusion h
        · exact ih (ai + 1) h
    · rw [mergeFailedLoop] at hmem
      simp only [hu, if_true, List.mem_cons] at hmem
      rcases hmem with h | h
      · exact Option.noConfusion h
      · exact ih ai h

/-- The completed-branch merge always emits one entry per non-skipped
item, regardless of how many artifacts are available. -/
lemma mergeCompletedLoop_length (useOriginal processed : List String) :
    ∀ (items : List String) (ai : Nat),
      (mergeCompletedLoop useOriginal processed items ai).length = items.length := by
  intro items
  induction items with
  | nil => intro ai; rfl
  | cons u rest ih =>
    intro ai
    by_cases hm : u ∈ useOriginal <;>
      simp [mergeCompletedLoop, hm, ih]

/-- When the artifacts run short, the completed-branch merge emits an
undefined entry for some needing item. -/
lemma mergeCompletedLoop_none_mem (useOriginal processed : List String) :
    ∀ (items : List String) (ai : Nat),
      ai ≤ processed.length →
      processed.length < ai + countNeeding useOriginal items →
      Option.none ∈ mergeCompletedLoop useOriginal processed items ai := by
  intro items
  induction items with
  | nil =>
    intro ai h1 h2
    simp [countNeeding] at h2
    omega
  | cons u rest ih =>
    intro ai h1 h2
    cases hu : useOriginal.contains u
    · rw [countNeeding_cons_need useOriginal u rest hu] at h2
      rcases Nat.lt_or_ge ai processed.length with hlt | hge
      · simp only [mergeCompletedLoop, hu, Bool.false_eq_true, if_false, List.mem_cons]
        exact Or.inr (ih (ai + 1) (by omega) (by omega))
      · have hget : processed.get? ai = none := List.get?_eq_none.mpr hge
        simp only [mergeCompletedLoop, hu, Bool.false_eq_true, if_false, hget, List.mem_cons]
        left
        trivial
    · rw [countNeeding_cons_uo useOriginal u rest hu] at h2
      simp only [mergeCompletedLoop, hu, if_true, List.mem_cons]
      exact Or.inr (ih ai h1 h2)

/-- C7 counterexample — on the completed outcome with fewer artifacts than
needing items, the merge is not truncated: it emits an undefined
placeholder entry for the unmatched tail. -/
theorem c7_truncation_counterexample :
    handleConfirmCategoriesMergeCompleted ["a"] [] [] [] = [Option.none]
    ∧ ([Option.none] : List Artifact) ≠ [] :=
  ⟨by decide, by decide⟩

/-- C7 amended — when the processed artifacts run short, the failed-branch
merge truncates: needing items beyond the available artifacts are omitted
and no undefined entry is emitted (use-original items are still emitted);
the completed-branch merge, however, does not truncate: it keeps one entry
per non-skipped item and emits an undefined entry for part of the
unmatched tail. -/
theorem c7_truncation_amended (photos skippedPhotos useOriginalPhotos aiGeneratedList : List String)
    (hshort : aiGeneratedList.length
      < countNeeding useOriginalPhotos (photosToProcess photos skippedPhotos)) :
    handleConfirmCategoriesMergeFailed photos skippedPhotos useOriginalPhotos aiGeneratedList
      = mergeFailedStruct useOriginalPhotos (photosToProcess photos skippedPhotos) aiGeneratedList
    ∧ Option.none ∉
        handleConfirmCategoriesMergeFailed photos skippedPhotos useOriginalPhotos aiGeneratedList
    ∧ (handleConfirmCategoriesMergeCompleted photos skippedPhotos useOriginalPhotos
          aiGeneratedList).length
        = (photosToProcess photos skippedPhotos).length
    ∧ Option.none ∈
        handleConfirmCategoriesMergeCompleted photos skippedPhotos useOriginalPhotos
          aiGeneratedList := by
  refine ⟨?_, ?_, ?_, ?_⟩
  · unfold handleConfirmCategoriesMergeFailed
    have h := mergeFailedLoop_eq_struct useOriginalPhotos aiGeneratedList
      (photosToProcess photos skippedPhotos) 0
    simpa using h
  · exact mergeFailedLoop_no_none useOriginalPhotos aiGeneratedList
      (photosToProcess photos skippedPhotos) 0
  · exact mergeCompletedLoop_length useOriginalPhotos aiGeneratedList
      (photosToProcess photos skippedPhotos) 0
  · exact mergeCompletedLoop_none_mem useOriginalPhotos aiGeneratedList
      (photosToProcess photos skippedPhotos) 0 (Nat.zero_le _) (by omega)

/-- Witness for the amended C7: with working items [a, b], useOriginal={b}
and no artifacts, the failed merge truncates to [b] while the completed
merge emits an undefined entry. -/
theorem c7_truncation_amended_witness :
    (([] : List String).length < countNeeding ["b"] (photosToProcess ["a", "b"] []))
    ∧ handleConfirmCategoriesMergeFailed ["a", "b"] [] ["b"] [] = [some "b"]
    ∧ Option.none ∈ handleConfirmCategoriesMergeCompleted ["a", "b"] [] ["b"] [] := by
  have h := c7_truncation_amended ["a", "b"] [] ["b"] [] (by decide)
  refine ⟨by decide, ?_, h.2.2.2⟩
  rw [h.1]
  decide

/-! ### Reorder/remove engine -/

/-- Indexed filtering with the keep-everything-but-`index` predicate is
deletion of the element at position `index`. -/
lemma filterWithIndexFrom_ne (index : Nat) :
    ∀ (l : List α) (n : Nat),
      filterWithIndexFrom (fun i => i != index) n l
        = if index < n then l else l.take (index - n) ++ l.drop (index - n + 1) := by
  intro l
  induction l with
  | nil =>
    intro n
    simp [filterWithIndexFrom]
  | cons a as ih =>
    intro n
    rcases Nat.lt_trichotomy index n with hlt | heq | hgt
    · have hb : (n != index) = true := by simp [Nat.ne_of_gt hlt]
      simp only [filterWithIndexFrom, hb, if_true]
      rw [ih (n + 1), if_pos (by omega), if_pos hlt]
    · have hb : (n != index) = false := by simp [heq]
      simp only [filterWithIndexFrom, hb, Bool.false_eq_true, if_false]
      rw [ih (n + 1), if_pos (by omega), if_neg (by omega)]
      simp [heq]
    · have hb : (n != index) = true := by simp [Nat.ne_of_lt hgt]
      have hk : index - n = (index - (n + 1)) + 1 := by omega
      simp only [filterWithIndexFrom, hb, if_true]
      rw [ih (n + 1), if_neg (by omega), if_neg (by omega), hk]
      simp [List.take_succ_cons, List.drop_succ_cons]

/-- C5 — remove at `index` deletes exactly that element (preserving the
relative order of the remaining ones), drops `index` itself from the
selection, re-maps every remaining selected index above `index` down by
one and leaves selected indices below `index` unchanged. -/
theorem c5_remove_remaps_selection (generatedImages : List Artifact)
    (selectedImagesForRegen : List Nat) (index : Nat) (h : index < generatedImages.length) :
    (handleRemoveFromListing generatedImages selectedImagesForRegen index).1
        = generatedImages.take index ++ generatedImages.drop (index + 1)
    ∧ (handleRemoveFromListing generatedImages selectedImagesForRegen index).1.length + 1
        = generatedImages.length
    ∧ (∀ i ∈ selectedImagesForRegen, i < index →
        i ∈ (handleRemoveFromListing generatedImages selectedImagesForRegen index).2)
    ∧ (∀ i ∈ selectedImagesForRegen, index < i →
        i - 1 ∈ (handleRemoveFromListing generatedImages selectedImagesForRegen index).2)
    ∧ (∀ k ∈ (handleRemoveFromListing generatedImages selectedImagesForRegen index).2,
        (k < index ∧ k ∈ selectedImagesForRegen)
        ∨ (index ≤ k ∧ k + 1 ∈ selectedImagesForRegen)) := by
  have hlist : (handleRemoveFromListing generatedImages selectedImagesForRegen index).1
      = generatedImages.take index ++ generatedImages.drop (index + 1) := by
    show filterWithIndexFrom (fun i => i != index) 0 generatedImages = _
    rw [filterWithIndexFrom_ne index generatedImages 0, if_neg (Nat.not_lt_zero index)]
    simp
  refine ⟨hlist, ?_, ?_, ?_, ?_⟩
  · rw [hlist]
    simp only [List.length_append, List.length_take, List.length_drop]
    omega
  · intro i hi hlt
    simp only [handleRemoveFromListing, List.mem_map, List.mem_filter]
    refine ⟨i, ⟨hi, by simp [Nat.ne_of_lt hlt]⟩, ?_⟩
    rw [if_neg (by omega)]
  · intro i hi hlt
    simp only [handleRemoveFromListing, List.mem_map, List.mem_filter]
    exact ⟨i, ⟨hi, by simp [Nat.ne_of_gt hlt]⟩, by rw [if_pos hlt]⟩
  · intro k hk
    simp only [handleRemoveFromListing, List.mem_map, List.mem_filter] at hk
    obtain ⟨i, ⟨hi, hne⟩, hf⟩ := hk
    have hne2 : i ≠ index := by simpa using hne
    by_cases hlt : index < i
    · rw [if_pos hlt] at hf
      right
      refine ⟨by omega, ?_⟩
      have hik : k + 1 = i := by omega
      rw [hik]
      exact hi
    · rw [if_neg hlt] at hf
      left
      exact ⟨by omega, hf ▸ hi⟩

/-- Witness for C5: OutputList=[x,y,z], selection={0,2}, remove(1) yields
OutputList=[x,z] and selection={0,1}. -/
theorem c5_remove_remaps_selection_witness :
    1 < ([some "x", some "y", some "z"] : List Artifact).length
    ∧ (handleRemoveFromListing [some "x", some "y", some "z"] [0, 2] 1).1 = [some "x", some "z"]
    ∧ (handleRemoveFromListing [some "x", some "y", some "z"] [0, 2] 1).2 = [0, 1] := by
  refine ⟨by decide, ?_, by decide⟩
  rw [(c5_remove_remaps_selection [some "x", some "y", some "z"] [0, 2] 1 (by decide)).1]
  decide

/-- Reading the inserted element back out of a splice insertion. -/
lemma take_cons_drop_get? : ∀ (i : Nat) (l : List α) (x : α), i ≤ l.length →
    (l.take i ++ x :: l.drop i).get? i = some x
  | 0, _, _, _ => rfl
  | i + 1, [], _, h => by simp at h
  | i + 1, a :: as, x, h => by
    simp only [List.take_succ_cons, List.drop_succ_cons, List.cons_append, List.get?_cons_succ]
    exact take_cons_drop_get? i as x (by simpa using h)

/-- Erasing the inserted element of a splice insertion restores the list. -/
lemma take_cons_drop_eraseIdx : ∀ (i : Nat) (l : List α) (x : α), i ≤ l.length →
    (l.take i ++ x :: l.drop i).eraseIdx i = l
  | 0, l, x, _ => by simp
  | i + 1, [], _, h => by simp at h
  | i + 1, a :: as, x, h => by
    simp only [List.take_succ_cons, List.drop_succ_cons, List.cons_append,
      List.eraseIdx_cons_succ]
    rw [take_cons_drop_eraseIdx i as x (by simpa using h)]

/-- A splice insertion grows the list by one. -/
lemma take_cons_drop_length (i : Nat) (l : List α) (x : α) (h : i ≤ l.length) :
    (l.take i ++ x :: l.drop i).length = l.length + 1 := by
  simp only [List.length_append, List.length_take, List.length_cons, List.length_drop]
  omega

/-- C6 — move relocates the element at `srcIdx` to position `destIdx`,
preserving the identities and relative order of all other elements, and
the moved index is dropped from the selection (selection does not follow
the moved item: the handler clears the selection). -/
theorem c6_move_relocates_and_drops_selection (generatedImages : List Artifact)
    (selectedImagesForRegen : List Nat) (srcIdx destIdx : Nat)
    (hs : srcIdx < generatedImages.length) (hd : destIdx < generatedImages.length)
    (hne : srcIdx ≠ destIdx) :
    (handleDragEnd generatedImages selectedImagesForRegen srcIdx destIdx).1.get? destIdx
        = generatedImages.get? srcIdx
    ∧ ((handleDragEnd generatedImages selectedImagesForRegen srcIdx destIdx).1).eraseIdx destIdx
        = generatedImages.eraseIdx srcIdx
    ∧ (handleDragEnd generatedImages selectedImagesForRegen srcIdx destIdx).1.length
        = generatedImages.length
    ∧ srcIdx ∉ (handleDragEnd generatedImages selectedImagesForRegen srcIdx destIdx).2 := by
  have hlen := List.length_eraseIdx_add_one (l := generatedImages) (i := srcIdx) hs
  have hdle : destIdx ≤ (generatedImages.eraseIdx srcIdx).length := by omega
  have hres : (handleDragEnd generatedImages selectedImagesForRegen srcIdx destIdx).1
      = (generatedImages.eraseIdx srcIdx).take destIdx
        ++ ((generatedImages.get? srcIdx).getD none)
          :: (generatedImages.eraseIdx srcIdx).drop destIdx := by
    simp [handleDragEnd, hne]
  have hsome : generatedImages.get? srcIdx = some generatedImages[srcIdx] :=
    List.get?_eq_get hs
  refine ⟨?_, ?_, ?_, ?_⟩
  · rw [hres, take_cons_drop_get? destIdx _ _ hdle, hsome]
    rfl
  · rw [hres, take_cons_drop_eraseIdx destIdx _ _ hdle]
  · rw [hres, take_cons_drop_length destIdx _ _ hdle]
    omega
  · simp [handleDragEnd, hne]

/-- Witness for C6: move(OutputList=[x,y,z], selection={1}, from=1, to=0)
relocates the element and drops index 1 from the selection. -/
theorem c6_move_relocates_and_drops_selection_witness :
    (1 < ([some "x", some "y", some "z"] : List Artifact).length ∧ (1 : Nat) ≠ 0)
    ∧ (handleDragEnd [some "x", some "y", some "z"] [1] 1 0).1.get? 0
        = ([some "x", some "y", some "z"] : List Artifact).get? 1
    ∧ 1 ∉ (handleDragEnd [some "x", some "y", some "z"] [1] 1 0).2 :=
  ⟨⟨by decide, by decide⟩,
    (c6_move_relocates_and_drops_selection [some "x", some "y", some "z"] [1] 1 0
      (by decide) (by decide) (by decide)).1,
    (c6_move_relocates_and_drops_selection [some "x", some "y", some "z"] [1] 1 0
      (by decide) (by decide) (by decide)).2.2.2⟩

/-! ### Regenerate write-back -/

/-- An in-range JavaScript index assignment preserves the array length. -/
lemma jsArraySet_length (l : List Artifact) (i : Nat) (x : Artifact) (h : i < l.length) :
    (jsArraySet l i x).length = l.length := by
  simp [jsArraySet, h]

/-- Reading back the assigned slot. -/
lemma jsArraySet_get?_self (l : List Artifact) (i : Nat) (x : Artifact) (h : i < l.length) :
    (jsArraySet l i x).get? i = some x := by
  simp only [jsArraySet, if_pos h]
  exact List.get?_set_eq_of_lt x h

/-- Reading any other slot is unchanged by an in-range assignment. -/
lemma jsArraySet_get?_other (l : List Artifact) (i j : Nat) (x : Artifact) (h : i < l.length)
    (hne : i ≠ j) :
    (jsArraySet l i x).get? j = l.get? j := by
  simp only [jsArraySet, if_pos h]
  exact List.get?_set_ne x l hne

/-- Frame property of the write-back loop: a position outside the written
prefix of the selection keeps its previous entry. -/
lemma regenWriteLoop_frame (urls : List String) :
    ∀ (sel : List Nat) (r : Nat) (acc : List Artifact) (p : Nat),
      (∀ i ∈ sel, i < acc.length) →
      p ∉ sel.take (urls.length - r) →
      (regenWriteLoop urls sel r acc).get? p = acc.get? p := by
  intro sel
  induction sel with
  | nil => intro r acc p _ _; rfl
  | cons i rest ih =>
    intro r acc p hin hp
    cases hget : urls.get? r with
    | none =>
      simp only [regenWriteLoop, hget]
      apply ih (r + 1) acc p (fun x hx => hin x (List.mem_cons_of_mem i hx))
      have hz : urls.length - (r + 1) = 0 := by
        have := List.get?_eq_none.mp hget
        omega
      rw [hz]
      simp
    | some u =>
      have hlt : r < urls.length := by
        by_contra hc
        push_neg at hc
        rw [List.get?_eq_none.mpr hc] at hget
        cases hget
      have htake : urls.length - r = (urls.length - (r + 1)) + 1 := by omega
      rw [htake, List.take_succ_cons] at hp
      simp only [List.mem_cons, not_or] at hp
      obtain ⟨hpi, hprest⟩ := hp
      have hi : i < acc.length := hin i (List.mem_cons_self i rest)
      simp only [regenWriteLoop, hget]
      have hstep := ih (r + 1) (jsArraySet acc i (some u)) p
        (fun x hx => by
          rw [jsArraySet_length acc i (some u) hi]
          exact hin x (List.mem_cons_of_mem i hx))
        hprest
      rw [hstep]
      exact jsArraySet_get?_other acc i p (some u) hi (Ne.symm hpi)

/-- Write property of the write-back loop: the j-th selected position, in
the selection's stored order, receives the (r+j)-th regenerated URL. -/
lemma regenWriteLoop_write (urls : List String) :
    ∀ (sel : List Nat) (r : Nat) (acc : List Artifact) (j : Nat) (hj : j < sel.length)
      (u : String),
      sel.Nodup →
      (∀ i ∈ sel, i < acc.length) →
      urls.get? (r + j) = some u →
      (regenWriteLoop urls sel r acc).get? (sel.get ⟨j, hj⟩) = some (some u) := by
  intro sel
  induction sel with
  | nil => intro r acc j hj u _ _ _; simp at hj
  | cons i rest ih =>
    intro r acc j hj u hnd hin hget
    cases j with
    | zero =>
      have hgr : urls.get? r = some u := by simpa using hget
      have hi : i < acc.length := hin i (List.mem_cons_self i rest)
      have hnotin : i ∉ rest := (List.nodup_cons.mp hnd).1
      simp only [regenWriteLoop, hgr]
      show (regenWriteLoop urls rest (r + 1) (jsArraySet acc i (some u))).get? i = some (some u)
      have hframe := regenWriteLoop_frame urls rest (r + 1) (jsArraySet acc i (some u)) i
        (fun x hx => by
          rw [jsArraySet_length acc i (some u) hi]
          exact hin x (List.mem_cons_of_mem i hx))
        (fun hmem => hnotin (List.take_subset _ _ hmem))
      rw [hframe]
      exact jsArraySet_get?_self acc i (some u) hi
    | succ j =>
      have hj2 : j < rest.length := by simpa using hj
      cases hgr : urls.get? r with
      | none =>
        have h1 : urls.length ≤ r := List.get?_eq_none.mp hgr
        have h2 : r + (j + 1) < urls.length := by
          by_contra hc
          push_neg at hc
          rw [List.get?_eq_none.mpr hc] at hget
          cases hget
        omega
      | some u0 =>
        have hi : i < acc.length := hin i (List.mem_cons_self i rest)
        simp only [regenWriteLoop, hgr]
        exact ih (r + 1) (jsArraySet acc i (some u0)) j hj2 u (List.nodup_cons.mp hnd).2
          (fun x hx => by
            rw [jsArraySet_length acc i (some u0) hi]
            exact hin x (List.mem_cons_of_mem i hx))
          (by rw [← hget]; congr 1; omega)

/-- The write-back loop preserves the output list's length when all
selected positions are in range. -/
lemma regenWriteLoop_length (urls : List String) :
    ∀ (sel : List Nat) (r : Nat) (acc : List Artifact),
      (∀ i ∈ sel, i < acc.length) →
      (regenWriteLoop urls sel r acc).length = acc.length := by
  intro sel
  induction sel with
  | nil => intro r acc _; rfl
  | cons i rest ih =>
    intro r acc hin
    have hi : i < acc.length := hin i (List.mem_cons_self i rest)
    cases hget : urls.get? r with
    | none =>
      simp only [regenWriteLoop, hget]
      exact ih (r + 1) acc (fun x hx => hin x (List.mem_cons_of_mem i hx))
    | some u =>
      simp only [regenWriteLoop, hget]
      rw [ih (r + 1) _ (fun x hx => by
        rw [jsArraySet_length acc i (some u) hi]
        exact hin x (List.mem_cons_of_mem i hx))]
      exact jsArraySet_length acc i (some u) hi

/-- C9 counterexample — the regenerate write-back aligns the results with
the selection's stored (insertion) order, not with the selected indices in
ascending order: with OutputList=[x,y,z], stored selection [2,0] and
results [A,B], the code writes [B,y,A] while the ascending-order rule
would give [A,y,B]. -/
theorem c9_ascending_counterexample :
    (handleRegenerateImages [some "x", some "y", some "z"] [2, 0] ["A", "B"]).1
        = [some "B", some "y", some "A"]
    ∧ regenAscendingMerge [some "x", some "y", some "z"] [2, 0] ["A", "B"]
        = [some "A", some "y", some "B"]
    ∧ (handleRegenerateImages [some "x", some "y", some "z"] [2, 0] ["A", "B"]).1
        ≠ regenAscendingMerge [some "x", some "y", some "z"] [2, 0] ["A", "B"] :=
  ⟨by decide, by decide, by decide⟩

/-- C9 amended — on a regenerate-only invocation the selected indices map
1:1, in the selection's stored order (not ascending order), to the ordered
regenerate results; each result is written back at its original index, and
every position that is not a selected index holds the same artifact as
before; the list length is unchanged and the selection is reset. -/
theorem c9_regen_stored_order_amended (generatedImages : List Artifact)
    (selectedImagesForRegen : List Nat) (regeneratedUrls : List String)
    (hnd : selectedImagesForRegen.Nodup)
    (hin : ∀ i ∈ selectedImagesForRegen, i < generatedImages.length)
    (_hlen : regeneratedUrls.length = selectedImagesForRegen.length) :
    (∀ (j : Nat) (hj : j < selectedImagesForRegen.length) (u : String),
        regeneratedUrls.get? j = some u →
        (handleRegenerateImages generatedImages selectedImagesForRegen
            regeneratedUrls).1.get? (selectedImagesForRegen.get ⟨j, hj⟩) = some (some u))
    ∧ (∀ p, p ∉ selectedImagesForRegen →
        (handleRegenerateImages generatedImages selectedImagesForRegen
            regeneratedUrls).1.get? p = generatedImages.get? p)
    ∧ (handleRegenerateImages generatedImages selectedImagesForRegen
          regeneratedUrls).1.length = generatedImages.length
    ∧ (handleRegenerateImages generatedImages selectedImagesForRegen
          regeneratedUrls).2 = [] := by
  refine ⟨?_, ?_, ?_, rfl⟩
  · intro j hj u hu
    exact regenWriteLoop_write regeneratedUrls selectedImagesForRegen 0 generatedImages j hj u
      hnd hin (by simpa using hu)
  · intro p hp
    exact regenWriteLoop_frame regeneratedUrls selectedImagesForRegen 0 generatedImages p hin
      (fun hmem => hp (List.take_subset _ _ hmem))
  · exact regenWriteLoop_length regeneratedUrls selectedImagesForRegen 0 generatedImages hin

/-- Witness for the amended C9: stored selection [2,0] with results [A,B]
writes A at index 2 (the first stored selected position). -/
theorem c9_regen_stored_order_amended_witness :
    ([2, 0] : List Nat).Nodup
    ∧ (handleRegenerateImages [some "x", some "y", some "z"] [2, 0] ["A", "B"]).1.get? 2
        = some (some "A") :=
  ⟨by decide,
    (c9_regen_stored_order_amended [some "x", some "y", some "z"] [2, 0] ["A", "B"]
      (by decide) (by decide) (by decide)).1 0 (by decide) "A" (by decide)⟩

/-- C10 — when the regenerate call returns fewer result artifacts than
there are selected indices, only the first k selected positions (in the
selection's stored order, k the number of results) are overwritten, every
other position — including the unmatched selected positions — retains its
previous artifact, the output list's length is unchanged, and the
selection is reset to empty. -/
theorem c10_regen_partial_frame (generatedImages : List Artifact)
    (selectedImagesForRegen : List Nat) (regeneratedUrls : List String)
    (hnd : selectedImagesForRegen.Nodup)
    (hin : ∀ i ∈ selectedImagesForRegen, i < generatedImages.length)
    (hfewer : regeneratedUrls.length < selectedImagesForRegen.length) :
    (∀ (j : Nat) (hj : j < regeneratedUrls.length) (u : String),
        regeneratedUrls.get? j = some u →
        (handleRegenerateImages generatedImages selectedImagesForRegen
            regeneratedUrls).1.get?
            (selectedImagesForRegen.get ⟨j, Nat.lt_trans hj hfewer⟩) = some (some u))
    ∧ (∀ p, p ∉ selectedImagesForRegen.take regeneratedUrls.length →
        (handleRegenerateImages generatedImages selectedImagesForRegen
            regeneratedUrls).1.get? p = generatedImages.get? p)
    ∧ (handleRegenerateImages generatedImages selectedImagesForRegen
          regeneratedUrls).1.length = generatedImages.length
    ∧ (handleRegenerateImages generatedImages selectedImagesForRegen
          regeneratedUrls).2 = [] := by
  refine ⟨?_, ?_, ?_, rfl⟩
  · intro j hj u hu
    exact regenWriteLoop_write regeneratedUrls selectedImagesForRegen 0 generatedImages j
      (Nat.lt_trans hj hfewer) u hnd hin (by simpa using hu)
  · intro p hp
    apply regenWriteLoop_frame regeneratedUrls selectedImagesForRegen 0 generatedImages p hin
    simpa using hp
  · exact regenWriteLoop_length regeneratedUrls selectedImagesForRegen 0 generatedImages hin

/-- Witness for C10: selection [0,2] with the single result [A] overwrites
only position 0; position 2 (the unmatched selected position) keeps its
previous artifact and the selection is reset. -/
theorem c10_regen_partial_frame_witness :
    (["A"] : List String).length < ([0, 2] : List Nat).length
    ∧ (handleRegenerateImages [some "x", some "y", some "z"] [0, 2] ["A"]).1.get? 2
        = ([some "x", some "y", some "z"] : List Artifact).get? 2
    ∧ (handleRegenerateImages [some "x", some "y", some "z"] [0, 2] ["A"]).2 = [] := by
  have h := c10_regen_partial_frame [some "x", some "y", some "z"] [0, 2] ["A"]
    (by decide) (by decide) (by decide)
  exact ⟨by decide, h.2.1 2 (by decide), h.2.2.2⟩
